import Mathlib

/-!
Verification of the cbft application herder (app_herder.go).

A shallow embedding of the `appHerder` memory-pressure admission controller:
quota configuration, the index registry, memory accounting
(`overMemQuotaForIndexingLOCKED`), the index admission gate
(`onBatchExecuteStart` with its condition-variable wait loop), query admission
(`onQueryStart` / `onQueryEnd`), and the progress hooks.

Modelling conventions:
* Go `uint64` values are `Nat` kept below `U64 = 2^64`; every update that the
  source performs with `uint64` arithmetic reduces modulo `U64`
  (so subtraction wraps, exactly as in Go).
* Go `int64` values are `Int`; where the source performs `int64` arithmetic
  that could wrap, the result is reduced with `wrap64` (two's-complement
  wraparound); a `uint64 -> int64` conversion is `toInt64`.
* The Go `int` field `waiting` is modelled as a plain `Int` (no claim touches
  its overflow behaviour, and it is only ever stepped by plus/minus one well
  inside the `int64` range).
* The external atomics (`cbft.CurMemoryUsed`, `cbft.BatchBytesAdded`,
  `cbft.BatchBytesRemoved`) and the live engine sizes are snapshots in an
  `Env` record.  A registered size callback `sizeFn(handle)` reads mutable
  engine state, so its current value is modelled as `env.sizes handle`; the
  registry itself is the list of registered handles.
* Blocking structure is made observable: each operation also returns the list
  of `HerderEvent`s it performed (mutex acquire/release, channel send,
  condition-variable wait, broadcast), in program order.
* `onBatchExecuteStart`'s wait loop blocks until a broadcast changes the
  world; sequentially, the snapshots observed at successive wake-ups are an
  input list `wakes`.  If the list is exhausted while still over quota the
  call is reported as blocked (`true` in the last component) in the state it
  holds at the suspension point.
-/

/-- `2^64`, the modulus of Go `uint64` arithmetic. -/
def U64 : Nat := 18446744073709551616

/-- `2^63`, the first `uint64` value that is negative as an `int64`. -/
def I64MIN : Nat := 9223372036854775808

/-- Go's `int64(u)` conversion of a `uint64` value: reinterpret modulo `2^64`
into `[-2^63, 2^63)`. -/
def toInt64 (n : Nat) : Int :=
  if n % U64 < I64MIN then ((n % U64 : Nat) : Int)
  else ((n % U64 : Nat) : Int) - (U64 : Int)

/-- Two's-complement wraparound of an `Int` into the `int64` range,
modelling Go `int64` addition overflow. -/
def wrap64 (x : Int) : Int :=
  (x + (I64MIN : Int)) % (U64 : Int) - (I64MIN : Int)

/-- Go `uint64` subtraction `x - y` (wraps modulo `2^64`); `x` is assumed
already reduced, `y` arbitrary. -/
def subU64 (x y : Nat) : Nat :=
  (x + (U64 - y % U64)) % U64

/-- Snapshot of the world outside the herder's own fields: the external atomic
counters read by the herder and the current value of every engine's size
callback (`sizes h` is what the registered `sizeFunc` returns for handle `h`
at this instant). -/
structure Env where
  curMemoryUsed : Nat
  batchBytesAdded : Nat
  batchBytesRemoved : Nat
  sizes : Nat → Nat

/-- The four stats counters of `appHerderStats` (Go `uint64`). -/
structure appHerderStats where
  TotWaitingIn : Nat
  TotWaitingOut : Nat
  TotOnBatchExecuteStartBeg : Nat
  TotOnBatchExecuteStartEnd : Nat
deriving Repr, DecidableEq

/-- The herder state: quotas (Go `int64`), whether an overquota channel was
configured, the waiter count, the registry of index handles, the
running-query accumulator (Go `uint64`) and the stats counters. -/
structure appHerder where
  memQuota : Int
  appQuota : Int
  indexQuota : Int
  queryQuota : Int
  overQuotaCh : Bool
  waiting : Int
  indexes : List Nat
  runningQueryUsed : Nat
  stats : appHerderStats
deriving DecidableEq

/-- Observable synchronization/channel actions, in program order. -/
inductive HerderEvent
  | lockEv | unlockEv | sendOverQuota | condWait | broadcast
deriving Repr, DecidableEq

/-- `a.indexes[c] = s` on a Go map: key set gains `c` (idempotent). -/
def insertHandle (c : Nat) (hs : List Nat) : List Nat :=
  if c ∈ hs then hs else c :: hs

/-- `delete(a.indexes, c)` on a Go map: key removed (no-op when absent). -/
def eraseHandle (c : Nat) (hs : List Nat) : List Nat :=
  hs.filter (fun h => h ≠ c)

/-- `indexingMemoryLOCKED`: sum of each registered handle's size callback,
accumulated in Go `uint64` (`rv += indexSizeFunc(index)`), so the running
total wraps modulo `2^64`; each callback value is itself a `uint64`. -/
def indexingMemoryLOCKED (a : appHerder) (env : Env) : Nat :=
  a.indexes.foldl (fun rv index => (rv + env.sizes index % U64) % U64) 0

/-- `preIndexingMemoryLOCKED`: `BatchBytesAdded - BatchBytesRemoved` with Go
`uint64` (wrapping) subtraction. -/
def preIndexingMemoryLOCKED (env : Env) : Nat :=
  subU64 (env.batchBytesAdded % U64) env.batchBytesRemoved

/-- `overMemQuotaForIndexingLOCKED`: the gate predicate.  If the summed index
memory is 0, not over quota (MB-29504 escape hatch).  Otherwise
`memUsed = int64(CurMemoryUsed) + int64(preIndexingMemory)` (Go `int64`
arithmetic), over quota iff `indexQuota > 0 && memUsed > indexQuota`, else
`appQuota > 0 && memUsed > appQuota`. -/
def overMemQuotaForIndexingLOCKED (a : appHerder) (env : Env) : Bool :=
  if indexingMemoryLOCKED a env = 0 then false
  else
    let memUsed : Int :=
      wrap64 (toInt64 env.curMemoryUsed + toInt64 (preIndexingMemoryLOCKED env))
    if a.indexQuota > 0 ∧ memUsed > a.indexQuota then true
    else decide (a.appQuota > 0 ∧ memUsed > a.appQuota)

/-- One `uint64` counter increment (`atomic.AddUint64(&x, 1)`). -/
def bumpU64 (x : Nat) : Nat := (x + 1) % U64

/-- `atomic.AddUint64(&a.stats.TotWaitingIn, 1)`. -/
def bumpWaitingIn (st : appHerderStats) : appHerderStats :=
  { st with TotWaitingIn := bumpU64 st.TotWaitingIn }

/-- `atomic.AddUint64(&a.stats.TotWaitingOut, 1)`. -/
def bumpWaitingOut (st : appHerderStats) : appHerderStats :=
  { st with TotWaitingOut := bumpU64 st.TotWaitingOut }

/-- `atomic.AddUint64(&a.stats.TotOnBatchExecuteStartBeg, 1)`. -/
def bumpBatchBeg (st : appHerderStats) : appHerderStats :=
  { st with TotOnBatchExecuteStartBeg := bumpU64 st.TotOnBatchExecuteStartBeg }

/-- `atomic.AddUint64(&a.stats.TotOnBatchExecuteStartEnd, 1)`. -/
def bumpBatchEnd (st : appHerderStats) : appHerderStats :=
  { st with TotOnBatchExecuteStartEnd := bumpU64 st.TotOnBatchExecuteStartEnd }

/-- Entering one wait-loop iteration: `TotWaitingIn++`, `waiting++` (the
state at the moment the worker suspends on the condition variable). -/
def waitEnter (a : appHerder) : appHerder :=
  { a with stats := bumpWaitingIn a.stats, waiting := a.waiting + 1 }

/-- Returning from the condition-variable wait: `waiting--`,
`TotWaitingOut++`. -/
def waitExit (a : appHerder) : appHerder :=
  { a with stats := bumpWaitingOut a.stats, waiting := a.waiting - 1 }

/-- The wait loop of `onBatchExecuteStart`, entered with the mutex held:
while `overMemQuotaForIndexingLOCKED`, bump `TotWaitingIn` and `waiting`,
send on the overquota channel if configured, then wait on the condition
variable.  `env` is the snapshot currently observed; each wake-up observes
the next element of `wakes`.  Returns the final state, the events performed,
and `true` iff the caller is still suspended (wake-ups exhausted while over
quota). -/
def batchWaitLoop (a : appHerder) (env : Env) :
    List Env → appHerder × List HerderEvent × Bool
  | [] =>
    if overMemQuotaForIndexingLOCKED a env then
      (waitEnter a,
       (if a.overQuotaCh then [HerderEvent.sendOverQuota] else []) ++
         [HerderEvent.condWait], true)
    else (a, [], false)
  | env' :: rest =>
    if overMemQuotaForIndexingLOCKED a env then
      let r := batchWaitLoop (waitExit (waitEnter a)) env' rest
      (r.1,
       (if a.overQuotaCh then [HerderEvent.sendOverQuota] else []) ++
         HerderEvent.condWait :: r.2.1, r.2.2)
    else (a, [], false)

/-- The tail of `onBatchExecuteStart` after the wait loop: when the loop
completed, unlock and bump `TotOnBatchExecuteStartEnd`; when it is still
suspended the mutex is still held and the end counter untouched. -/
def batchFinish (r : appHerder × List HerderEvent × Bool) :
    appHerder × List HerderEvent × Bool :=
  if r.2.2 then (r.1, HerderEvent.lockEv :: r.2.1, true)
  else
    ({ r.1 with stats := bumpBatchEnd r.1.stats },
     HerderEvent.lockEv :: (r.2.1 ++ [HerderEvent.unlockEv]), false)

/-- `onBatchExecuteStart(c, s)`: if `indexQuota < 0` return at once (before
any counter update).  Otherwise bump `TotOnBatchExecuteStartBeg`, lock,
register the handle, run the wait loop and finish.  The stored size callback
is evaluated through `Env.sizes` (see module docstring). -/
def onBatchExecuteStart (a : appHerder) (c : Nat) (env : Env) (wakes : List Env) :
    appHerder × List HerderEvent × Bool :=
  if a.indexQuota < 0 then (a, [], false)
  else
    batchFinish (batchWaitLoop
      { a with stats := bumpBatchBeg a.stats, indexes := insertHandle c a.indexes }
      env wakes)

/-- `awakeWaitersLOCKED`: broadcast iff `waiting > 0` (trace only). -/
def awakeWaitersLOCKED (a : appHerder) : List HerderEvent :=
  if a.waiting > 0 then [HerderEvent.broadcast] else []

/-- `onClose(c)`: under the lock, delete the handle and wake waiters. -/
def onClose (a : appHerder) (c : Nat) : appHerder × List HerderEvent :=
  let a1 : appHerder := { a with indexes := eraseHandle c a.indexes }
  (a1, HerderEvent.lockEv :: (awakeWaitersLOCKED a1 ++ [HerderEvent.unlockEv]))

/-- `awakeWaiters(msg)`: lock, wake waiters, unlock (state unchanged). -/
def awakeWaiters (a : appHerder) : appHerder × List HerderEvent :=
  (a, HerderEvent.lockEv :: (awakeWaitersLOCKED a ++ [HerderEvent.unlockEv]))

/-- `onPersisterProgress`: wake waiters. -/
def onPersisterProgress (a : appHerder) : appHerder × List HerderEvent :=
  awakeWaiters a

/-- `onMergerProgress`: wake waiters. -/
def onMergerProgress (a : appHerder) : appHerder × List HerderEvent :=
  awakeWaiters a

/-- `onMemoryUsedDropped(cur, prev)`: wake waiters (arguments informational). -/
def onMemoryUsedDropped (a : appHerder) (curMemoryUsed prevMemoryUsed : Nat) :
    appHerder × List HerderEvent :=
  awakeWaiters a

/-- The query-rejection sentinel `rest.ErrorSearchReqRejected`. -/
inductive QueryErr
  | ErrorSearchReqRejected
deriving Repr, DecidableEq

/-- `onQueryStart(depth, size)`: bypass when `queryQuota < 0`; under the lock,
a depth-0 query with `runningQueryUsed > 0` is checked against
`memUsed = int64(CurMemoryUsed) + int64(size)`: over `queryQuota` or over
`appQuota` means unlock, send on the overquota channel if configured, and
reject; otherwise `runningQueryUsed += size` (uint64) and admit. -/
def onQueryStart (a : appHerder) (env : Env) (depth : Int) (size : Nat) :
    appHerder × List HerderEvent × Option QueryErr :=
  if a.queryQuota < 0 then (a, [], none)
  else if depth = 0 ∧ a.runningQueryUsed > 0 then
    if a.queryQuota > 0 ∧
        wrap64 (toInt64 env.curMemoryUsed + toInt64 size) > a.queryQuota then
      (a, HerderEvent.lockEv :: HerderEvent.unlockEv ::
            (if a.overQuotaCh then [HerderEvent.sendOverQuota] else []),
       some QueryErr.ErrorSearchReqRejected)
    else if a.appQuota > 0 ∧
        wrap64 (toInt64 env.curMemoryUsed + toInt64 size) > a.appQuota then
      (a, HerderEvent.lockEv :: HerderEvent.unlockEv ::
            (if a.overQuotaCh then [HerderEvent.sendOverQuota] else []),
       some QueryErr.ErrorSearchReqRejected)
    else
      ({ a with runningQueryUsed := (a.runningQueryUsed + size) % U64 },
       [HerderEvent.lockEv, HerderEvent.unlockEv], none)
  else
    ({ a with runningQueryUsed := (a.runningQueryUsed + size) % U64 },
     [HerderEvent.lockEv, HerderEvent.unlockEv], none)

/-- `onQueryEnd(depth, size)`: under the lock, `runningQueryUsed -= size`
with Go `uint64` (wrapping) subtraction, wake waiters, return nil. -/
def onQueryEnd (a : appHerder) (depth : Int) (size : Nat) :
    appHerder × List HerderEvent × Option QueryErr :=
  let a1 : appHerder :=
    { a with runningQueryUsed := subU64 a.runningQueryUsed size }
  (a1, HerderEvent.lockEv :: (awakeWaitersLOCKED a1 ++ [HerderEvent.unlockEv]),
   none)

/-- Number of `sendOverQuota` events in a trace. -/
def countSends (tr : List HerderEvent) : Nat :=
  tr.countP (fun e => e = HerderEvent.sendOverQuota)

/-- Number of `condWait` events in a trace. -/
def countWaits (tr : List HerderEvent) : Nat :=
  tr.countP (fun e => e = HerderEvent.condWait)

/-- Sends performed while the mutex is held, tracking lock depth (`condWait`
reacquires the mutex before continuing, so it leaves the depth unchanged for
the events around it). -/
def sendsLockedAux (d : Int) : List HerderEvent → Nat
  | [] => 0
  | HerderEvent.lockEv :: rest => sendsLockedAux (d + 1) rest
  | HerderEvent.unlockEv :: rest => sendsLockedAux (d - 1) rest
  | HerderEvent.sendOverQuota :: rest =>
    (if d > 0 then 1 else 0) + sendsLockedAux d rest
  | HerderEvent.condWait :: rest => sendsLockedAux d rest
  | HerderEvent.broadcast :: rest => sendsLockedAux d rest

/-- Sends performed while holding the herder mutex, starting unlocked. -/
def sendsWhileLocked (tr : List HerderEvent) : Nat :=
  sendsLockedAux 0 tr

/-! ## Arithmetic helpers -/

theorem toInt64_of_lt (n : Nat) (h : n < I64MIN) : toInt64 n = (n : Int) := by
  have hU : n < U64 := by unfold U64; unfold I64MIN at h; omega
  unfold toInt64
  rw [Nat.mod_eq_of_lt hU, if_pos h]

theorem wrap64_of_small (x : Int) (h0 : 0 ≤ x) (h1 : x < ((I64MIN : Nat) : Int)) :
    wrap64 x = x := by
  unfold wrap64
  unfold U64 I64MIN at *
  have : ((9223372036854775808 : Nat) : Int) = (9223372036854775808 : Int) := by
    norm_num
  rw [this] at h1
  rw [Int.emod_eq_of_lt (by push_cast; omega) (by push_cast; omega)]
  push_cast
  omega

/-! ## C1: the indexing over-quota predicate -/

/-- C1: with the herder lock held, `overMemQuotaForIndexingLOCKED` returns
`false` unconditionally whenever the (uint64) sum of the registered indexes'
size callbacks is 0, regardless of process RSS; otherwise, with
`memUsed = processRSS + preIndexingMemory` (no `int64` overflow), it returns
`true` iff `(indexQuota > 0 ∧ memUsed > indexQuota)` or else
`(appQuota > 0 ∧ memUsed > appQuota)` — in particular with `indexQuota = 0`
and `appQuota > 0`, indexing is still gated by `appQuota`. -/
theorem claim_C1_overMemQuota (a : appHerder) (env : Env) :
    (indexingMemoryLOCKED a env = 0 →
      overMemQuotaForIndexingLOCKED a env = false) ∧
    (env.curMemoryUsed + preIndexingMemoryLOCKED env < I64MIN →
      indexingMemoryLOCKED a env ≠ 0 →
      (overMemQuotaForIndexingLOCKED a env = true ↔
        (0 < a.indexQuota ∧
          (env.curMemoryUsed : Int) + (preIndexingMemoryLOCKED env : Int) >
            a.indexQuota) ∨
        (0 < a.appQuota ∧
          (env.curMemoryUsed : Int) + (preIndexingMemoryLOCKED env : Int) >
            a.appQuota))) := by
  constructor
  · intro h
    unfold overMemQuotaForIndexingLOCKED
    rw [if_pos h]
  · intro hfit h
    have hcur : env.curMemoryUsed < I64MIN := by omega
    have hpre : preIndexingMemoryLOCKED env < I64MIN := by omega
    have e1 : toInt64 env.curMemoryUsed = (env.curMemoryUsed : Int) :=
      toInt64_of_lt _ hcur
    have e2 : toInt64 (preIndexingMemoryLOCKED env) =
        ((preIndexingMemoryLOCKED env : Nat) : Int) := toInt64_of_lt _ hpre
    have e3 : wrap64 ((env.curMemoryUsed : Int) +
        ((preIndexingMemoryLOCKED env : Nat) : Int)) =
        (env.curMemoryUsed : Int) + ((preIndexingMemoryLOCKED env : Nat) : Int) := by
      apply wrap64_of_small
      · positivity
      · exact_mod_cast hfit
    unfold overMemQuotaForIndexingLOCKED
    rw [if_neg h]
    simp only [e1, e2, e3]
    by_cases hP : 0 < a.indexQuota ∧
        (env.curMemoryUsed : Int) + ((preIndexingMemoryLOCKED env : Nat) : Int) >
          a.indexQuota
    · simp [hP]
    · simp [hP]

def ahC1 : appHerder := ⟨100, 50, 0, 0, false, 0, [7], 0, ⟨0, 0, 0, 0⟩⟩

def envC1 : Env := ⟨100, 0, 0, fun _ => 5⟩

def envC1b : Env := ⟨10000000000, 0, 0, fun _ => 0⟩

theorem claim_C1_witness :
    (indexingMemoryLOCKED ahC1 envC1b = 0 ∧
     overMemQuotaForIndexingLOCKED ahC1 envC1b = false) ∧
    ((envC1.curMemoryUsed + preIndexingMemoryLOCKED envC1 < I64MIN ∧
      indexingMemoryLOCKED ahC1 envC1 ≠ 0) ∧
     (overMemQuotaForIndexingLOCKED ahC1 envC1 = true ↔
       (0 < ahC1.indexQuota ∧
         (envC1.curMemoryUsed : Int) + (preIndexingMemoryLOCKED envC1 : Int) >
           ahC1.indexQuota) ∨
       (0 < ahC1.appQuota ∧
         (envC1.curMemoryUsed : Int) + (preIndexingMemoryLOCKED envC1 : Int) >
           ahC1.appQuota))) :=
  ⟨⟨by decide, (claim_C1_overMemQuota ahC1 envC1b).1 (by decide)⟩,
   ⟨⟨by decide, by decide⟩,
    (claim_C1_overMemQuota ahC1 envC1).2 (by decide) (by decide)⟩⟩

/-! ## C2: the `indexQuota < 0` fast bypass of `onBatchExecuteStart` -/

theorem onBatchExecuteStart_neg (a : appHerder) (c : Nat) (env : Env)
    (wakes : List Env) (h : a.indexQuota < 0) :
    onBatchExecuteStart a c env wakes = (a, [], false) := by
  unfold onBatchExecuteStart
  rw [if_pos h]

def ahC2 : appHerder :=
  ⟨1000000000, 1000000000, -1000000000, 1000000000, false, 0, [], 0,
   ⟨0, 0, 0, 0⟩⟩

def envC2 : Env := ⟨10000000000, 0, 0, fun _ => 0⟩

/-- C2 counterexample: in scenario S1 (`indexQuota = -10^9 < 0`, process RSS
`10^10`, initial stats all zero) one call of `onBatchExecuteStart` does
return without blocking, but leaves `TotOnBatchExecuteStartBeg = 0`, not `1`:
the fast bypass returns before either counter is incremented. -/
theorem claim_C2_counterexample :
    ahC2.indexQuota < 0 ∧
    (onBatchExecuteStart ahC2 1 envC2 []).2.2 = false ∧
    (onBatchExecuteStart ahC2 1 envC2 []).1.stats.TotOnBatchExecuteStartBeg =
      0 ∧
    (onBatchExecuteStart ahC2 1 envC2 []).1.stats.TotOnBatchExecuteStartBeg ≠
      1 := by
  refine ⟨by decide, by decide, by decide, by decide⟩

/-- C2 (amended): when `indexQuota < 0`, `onBatchExecuteStart` returns
immediately — no blocking, no events, the whole herder state (stats counters
included) unchanged; after one such call `TotOnBatchExecuteStartBeg`,
`TotOnBatchExecuteStartEnd` and `TotWaitingIn` keep their previous values
(all `0` from the initial state), rather than the `Beg = End = 1` the claim
states. -/
theorem claim_C2_bypass (a : appHerder) (c : Nat) (env : Env)
    (wakes : List Env) (h : a.indexQuota < 0) :
    onBatchExecuteStart a c env wakes = (a, [], false) ∧
    countWaits (onBatchExecuteStart a c env wakes).2.1 = 0 ∧
    (onBatchExecuteStart a c env wakes).1.stats.TotOnBatchExecuteStartBeg =
      a.stats.TotOnBatchExecuteStartBeg ∧
    (onBatchExecuteStart a c env wakes).1.stats.TotOnBatchExecuteStartEnd =
      a.stats.TotOnBatchExecuteStartEnd ∧
    (onBatchExecuteStart a c env wakes).1.stats.TotWaitingIn =
      a.stats.TotWaitingIn := by
  rw [onBatchExecuteStart_neg a c env wakes h]
  refine ⟨rfl, ?_, rfl, rfl, rfl⟩
  simp [countWaits]

theorem claim_C2_witness :
    ahC2.indexQuota < 0 ∧
    (onBatchExecuteStart ahC2 1 envC2 [] = (ahC2, [], false) ∧
     countWaits (onBatchExecuteStart ahC2 1 envC2 []).2.1 = 0 ∧
     (onBatchExecuteStart ahC2 1 envC2 []).1.stats.TotOnBatchExecuteStartBeg =
       ahC2.stats.TotOnBatchExecuteStartBeg ∧
     (onBatchExecuteStart ahC2 1 envC2 []).1.stats.TotOnBatchExecuteStartEnd =
       ahC2.stats.TotOnBatchExecuteStartEnd ∧
     (onBatchExecuteStart ahC2 1 envC2 []).1.stats.TotWaitingIn =
       ahC2.stats.TotWaitingIn) :=
  ⟨by decide, claim_C2_bypass ahC2 1 envC2 [] (by decide)⟩

/-! ## C10: frame effects of the negative-quota bypasses -/

/-- C10: with `indexQuota < 0`, `onBatchExecuteStart` changes nothing — the
handle is not registered, `runningQueryUsed`, `waiting` and all stats are
untouched — and a later `onClose` of the never-registered handle removes
nothing; with `queryQuota < 0`, `onQueryStart` admits without touching
`runningQueryUsed`, while `onQueryEnd` still unconditionally subtracts
`size`. -/
theorem claim_C10_frame (a : appHerder) (c : Nat) (env : Env)
    (wakes : List Env) (depth : Int) (size : Nat)
    (h1 : a.indexQuota < 0) (h2 : a.queryQuota < 0)
    (hc : c ∉ a.indexes) (hru : a.runningQueryUsed < U64)
    (hs : size ≤ a.runningQueryUsed) :
    onBatchExecuteStart a c env wakes = (a, [], false) ∧
    (onClose a c).1.indexes = a.indexes ∧
    onQueryStart a env depth size = (a, [], none) ∧
    (onQueryEnd a depth size).1.runningQueryUsed =
      a.runningQueryUsed - size ∧
    (onQueryEnd a depth size).1.indexes = a.indexes ∧
    (onQueryEnd a depth size).1.stats = a.stats ∧
    (onQueryEnd a depth size).1.waiting = a.waiting := by
  refine ⟨onBatchExecuteStart_neg a c env wakes h1, ?_, ?_, ?_, rfl, rfl, rfl⟩
  · show eraseHandle c a.indexes = a.indexes
    unfold eraseHandle
    apply List.filter_eq_self.mpr
    intro x hx
    simp only [ne_eq, decide_eq_true_eq]
    exact fun hxc => hc (hxc ▸ hx)
  · unfold onQueryStart
    rw [if_pos h2]
  · show subU64 a.runningQueryUsed size = a.runningQueryUsed - size
    unfold subU64 U64 at *
    omega

def ahC10 : appHerder := ⟨100, 100, -1, -1, true, 0, [3], 10, ⟨0, 0, 0, 0⟩⟩

def envC10 : Env := ⟨50, 0, 0, fun _ => 5⟩

theorem claim_C10_witness :
    (ahC10.indexQuota < 0 ∧ ahC10.queryQuota < 0 ∧ (7 : Nat) ∉ ahC10.indexes ∧
     ahC10.runningQueryUsed < U64 ∧ (4 : Nat) ≤ ahC10.runningQueryUsed) ∧
    (onBatchExecuteStart ahC10 7 envC10 [] = (ahC10, [], false) ∧
     (onClose ahC10 7).1.indexes = ahC10.indexes ∧
     onQueryStart ahC10 envC10 0 4 = (ahC10, [], none) ∧
     (onQueryEnd ahC10 0 4).1.runningQueryUsed =
       ahC10.runningQueryUsed - 4 ∧
     (onQueryEnd ahC10 0 4).1.indexes = ahC10.indexes ∧
     (onQueryEnd ahC10 0 4).1.stats = ahC10.stats ∧
     (onQueryEnd ahC10 0 4).1.waiting = ahC10.waiting) :=
  ⟨⟨by decide, by decide, by decide, by decide, by decide⟩,
   claim_C10_frame ahC10 7 envC10 [] 0 4 (by decide) (by decide) (by decide)
     (by decide) (by decide)⟩

/-! ## C3: depth-0 query rejection under pressure -/

/-- C3: a depth-0 `onQueryStart` made while `runningQueryUsed > 0` and
`queryQuota ≥ 0`, whose `memUsed = processRSS + size` (no `int64` overflow)
is over `queryQuota` or else over `appQuota`, returns
`ErrorSearchReqRejected`, performs exactly one overquota-channel send when a
channel is configured (none otherwise), never waits on the condition
variable, and leaves the herder state — `runningQueryUsed` included —
unchanged. -/
theorem claim_C3_queryReject (a : appHerder) (env : Env) (size : Nat)
    (hq : 0 ≤ a.queryQuota) (hr : 0 < a.runningQueryUsed)
    (hfit : env.curMemoryUsed + size < I64MIN)
    (hover : (a.queryQuota > 0 ∧
        (env.curMemoryUsed : Int) + (size : Int) > a.queryQuota) ∨
      (a.appQuota > 0 ∧
        (env.curMemoryUsed : Int) + (size : Int) > a.appQuota)) :
    (onQueryStart a env 0 size).2.2 = some QueryErr.ErrorSearchReqRejected ∧
    countSends (onQueryStart a env 0 size).2.1 =
      (if a.overQuotaCh then 1 else 0) ∧
    countWaits (onQueryStart a env 0 size).2.1 = 0 ∧
    (onQueryStart a env 0 size).1 = a := by
  have hcur : env.curMemoryUsed < I64MIN := by omega
  have hsz : size < I64MIN := by omega
  have emem : wrap64 (toInt64 env.curMemoryUsed + toInt64 size) =
      (env.curMemoryUsed : Int) + (size : Int) := by
    rw [toInt64_of_lt _ hcur, toInt64_of_lt _ hsz]
    apply wrap64_of_small
    · positivity
    · exact_mod_cast hfit
  unfold onQueryStart
  rw [if_neg (not_lt.mpr hq),
      if_pos (show (0 : Int) = 0 ∧ 0 < a.runningQueryUsed from ⟨rfl, hr⟩)]
  rw [emem]
  by_cases hP : a.queryQuota > 0 ∧
      (env.curMemoryUsed : Int) + (size : Int) > a.queryQuota
  · rw [if_pos hP]
    refine ⟨rfl, ?_, ?_, rfl⟩ <;>
      cases hov : a.overQuotaCh <;>
        simp [countSends, countWaits, List.countP, List.countP.go, hov]
  · have hA : a.appQuota > 0 ∧
        (env.curMemoryUsed : Int) + (size : Int) > a.appQuota := by
      rcases hover with h | h
      · exact absurd h hP
      · exact h
    rw [if_neg hP, if_pos hA]
    refine ⟨rfl, ?_, ?_, rfl⟩ <;>
      cases hov : a.overQuotaCh <;>
        simp [countSends, countWaits, List.countP, List.countP.go, hov]

def ahC3 : appHerder := ⟨100, 100, 50, 50, true, 0, [], 10, ⟨0, 0, 0, 0⟩⟩

def envC3 : Env := ⟨45, 0, 0, fun _ => 0⟩

theorem claim_C3_witness :
    ((0 : Int) ≤ ahC3.queryQuota ∧ 0 < ahC3.runningQueryUsed ∧
     envC3.curMemoryUsed + 20 < I64MIN ∧
     ((ahC3.queryQuota > 0 ∧
         (envC3.curMemoryUsed : Int) + (20 : Int) > ahC3.queryQuota) ∨
      (ahC3.appQuota > 0 ∧
         (envC3.curMemoryUsed : Int) + (20 : Int) > ahC3.appQuota))) ∧
    ((onQueryStart ahC3 envC3 0 20).2.2 =
        some QueryErr.ErrorSearchReqRejected ∧
     countSends (onQueryStart ahC3 envC3 0 20).2.1 =
        (if ahC3.overQuotaCh then 1 else 0) ∧
     countWaits (onQueryStart ahC3 envC3 0 20).2.1 = 0 ∧
     (onQueryStart ahC3 envC3 0 20).1 = ahC3) :=
  ⟨⟨by decide, by decide, by decide, by decide⟩,
   claim_C3_queryReject ahC3 envC3 20 (by decide) (by decide) (by decide)
     (by decide)⟩

/-! ## C4: the single-query escape hatch -/

/-- C4: whenever `runningQueryUsed = 0` and `queryQuota ≥ 0`, a depth-0
`onQueryStart` is admitted (returns nil) and sets `runningQueryUsed` to
`size`, regardless of the reported process RSS and of every quota. -/
theorem claim_C4_singleQueryEscape (a : appHerder) (env : Env) (size : Nat)
    (hq : 0 ≤ a.queryQuota) (h0 : a.runningQueryUsed = 0) (hs : size < U64) :
    (onQueryStart a env 0 size).2.2 = none ∧
    (onQueryStart a env 0 size).1.runningQueryUsed = size := by
  unfold onQueryStart
  rw [if_neg (not_lt.mpr hq), if_neg (by simp [h0])]
  refine ⟨rfl, ?_⟩
  show (a.runningQueryUsed + size) % U64 = size
  rw [h0, Nat.zero_add]
  exact Nat.mod_eq_of_lt hs

def ahC4 : appHerder := ⟨100, 100, 50, 50, true, 0, [], 0, ⟨0, 0, 0, 0⟩⟩

def envC4 : Env := ⟨1000000, 0, 0, fun _ => 0⟩

theorem claim_C4_witness :
    ((0 : Int) ≤ ahC4.queryQuota ∧ ahC4.runningQueryUsed = 0 ∧
     (999999 : Nat) < U64 ∧
     (envC4.curMemoryUsed : Int) + (999999 : Int) > ahC4.queryQuota ∧
     (envC4.curMemoryUsed : Int) + (999999 : Int) > ahC4.appQuota) ∧
    ((onQueryStart ahC4 envC4 0 999999).2.2 = none ∧
     (onQueryStart ahC4 envC4 0 999999).1.runningQueryUsed = 999999) :=
  ⟨⟨by decide, by decide, by decide, by decide, by decide⟩,
   claim_C4_singleQueryEscape ahC4 envC4 999999 (by decide) (by decide)
     (by decide)⟩

/-! ## C5: nested queries -/

def ahC5 : appHerder := ⟨100, 100, 10, -1, true, 0, [], 0, ⟨0, 0, 0, 0⟩⟩

def envC5 : Env := ⟨0, 0, 0, fun _ => 0⟩

/-- C5 counterexample: with `queryQuota = -1` a depth-1 `onQueryStart` of
size 5 is admitted but leaves `runningQueryUsed` unchanged (the negative
quota bypass skips the accounting), contradicting the claimed increase by
exactly `size` regardless of quotas. -/
theorem claim_C5_counterexample :
    (0 : Int) < 1 ∧
    (onQueryStart ahC5 envC5 1 5).2.2 = none ∧
    (onQueryStart ahC5 envC5 1 5).1.runningQueryUsed = 0 ∧
    (onQueryStart ahC5 envC5 1 5).1.runningQueryUsed ≠
      ahC5.runningQueryUsed + 5 := by
  refine ⟨by decide, by decide, by decide, by decide⟩

/-- C5 (amended): provided `queryQuota ≥ 0`, every `onQueryStart` with
`depth > 0` is admitted (returns nil) and `runningQueryUsed` increases by
exactly `size` (no `uint64` wrap), regardless of process RSS, the quota
values and the current accumulator; with `queryQuota < 0` the call is still
admitted but the accumulator is left unchanged. -/
theorem claim_C5_nestedAdmit (a : appHerder) (env : Env) (depth : Int)
    (size : Nat) (hd : 0 < depth) (hq : 0 ≤ a.queryQuota)
    (hfit : a.runningQueryUsed + size < U64) :
    (onQueryStart a env depth size).2.2 = none ∧
    (onQueryStart a env depth size).1.runningQueryUsed =
      a.runningQueryUsed + size := by
  unfold onQueryStart
  rw [if_neg (not_lt.mpr hq), if_neg (by rintro ⟨h0, -⟩; omega)]
  refine ⟨rfl, ?_⟩
  show (a.runningQueryUsed + size) % U64 = a.runningQueryUsed + size
  exact Nat.mod_eq_of_lt hfit

def ahC5w : appHerder := ⟨100, 100, 10, 50, true, 0, [], 1000, ⟨0, 0, 0, 0⟩⟩

theorem claim_C5_witness :
    ((0 : Int) < 2 ∧ (0 : Int) ≤ ahC5w.queryQuota ∧
     ahC5w.runningQueryUsed + 100 < U64) ∧
    ((onQueryStart ahC5w envC5 2 100).2.2 = none ∧
     (onQueryStart ahC5w envC5 2 100).1.runningQueryUsed =
       ahC5w.runningQueryUsed + 100) :=
  ⟨⟨by decide, by decide, by decide⟩,
   claim_C5_nestedAdmit ahC5w envC5 2 100 (by decide) (by decide) (by decide)⟩

/-! ## C6: matched start/end pairs -/

/-- A sequence of matched `(onQueryStart(0, s), onQueryEnd(0, s))` pairs,
executed back to back. -/
def runQueryPairs (a : appHerder) (env : Env) : List Nat → appHerder
  | [] => a
  | s :: rest =>
    runQueryPairs (onQueryEnd (onQueryStart a env 0 s).1 0 s).1 env rest

def ahC6 : appHerder := ⟨100, 100, 10, -1, true, 0, [], 0, ⟨0, 0, 0, 0⟩⟩

/-- C6 counterexample: with `queryQuota = -1` and `runningQueryUsed = 0`, one
matched pair of size 1 leaves `runningQueryUsed = 2^64 - 1`, not 0: the
bypassed start adds nothing while the end still subtracts (wrapping). -/
theorem claim_C6_counterexample :
    ahC6.runningQueryUsed = 0 ∧
    (runQueryPairs ahC6 envC5 [1]).runningQueryUsed ≠ 0 := by
  refine ⟨by decide, by decide⟩

/-- C6 (amended): provided `queryQuota ≥ 0`, any sequence of matched
`(onQueryStart(0, s), onQueryEnd(0, s))` pairs run from a state with
`runningQueryUsed = 0` ends with `runningQueryUsed = 0`: each admitted
start's increment is undone by its matching end. -/
theorem claim_C6_pairing (a : appHerder) (env : Env) (sizes : List Nat)
    (hq : 0 ≤ a.queryQuota) (h0 : a.runningQueryUsed = 0) :
    (runQueryPairs a env sizes).runningQueryUsed = 0 := by
  induction sizes generalizing a with
  | nil => simpa [runQueryPairs] using h0
  | cons s rest ih =>
    have e1 : (onQueryStart a env 0 s).1 =
        { a with runningQueryUsed := (a.runningQueryUsed + s) % U64 } := by
      unfold onQueryStart
      rw [if_neg (not_lt.mpr hq), if_neg (by simp [h0])]
    show (runQueryPairs (onQueryEnd (onQueryStart a env 0 s).1 0 s).1 env
      rest).runningQueryUsed = 0
    rw [e1]
    apply ih
    · simpa [onQueryEnd] using hq
    · show subU64 ((a.runningQueryUsed + s) % U64) s = 0
      rw [h0]
      unfold subU64 U64
      omega

def ahC6w : appHerder := ⟨100, 100, 10, 50, true, 0, [], 0, ⟨0, 0, 0, 0⟩⟩

theorem claim_C6_witness :
    ((0 : Int) ≤ ahC6w.queryQuota ∧ ahC6w.runningQueryUsed = 0) ∧
    (runQueryPairs ahC6w envC5 [3, 7, 2]).runningQueryUsed = 0 :=
  ⟨⟨by decide, by decide⟩,
   claim_C6_pairing ahC6w envC5 [3, 7, 2] (by decide) (by decide)⟩

/-! ## C7: `onQueryEnd` underflow behaviour -/

def ahC7 : appHerder := ⟨100, 100, 10, 50, false, 0, [], 0, ⟨0, 0, 0, 0⟩⟩

/-- C7 counterexample: `onQueryEnd(0, 1)` on `runningQueryUsed = 0` leaves
`runningQueryUsed = 2^64 - 1`, not the claimed clamp to zero: Go `uint64`
subtraction wraps. -/
theorem claim_C7_counterexample :
    ahC7.runningQueryUsed = 0 ∧
    (onQueryEnd ahC7 0 1).1.runningQueryUsed = U64 - 1 ∧
    (onQueryEnd ahC7 0 1).1.runningQueryUsed ≠ 0 := by
  refine ⟨by decide, by decide, by decide⟩

/-- C7 (amended): `onQueryEnd` subtracts `size` from `runningQueryUsed`
modulo `2^64`: the result is the exact difference when `size ≤
runningQueryUsed`, and when `size > runningQueryUsed` the accumulator wraps
to `runningQueryUsed + 2^64 - size` (a non-zero value), rather than clamping
to zero. -/
theorem claim_C7_wrap (a : appHerder) (depth : Int) (size : Nat)
    (hru : a.runningQueryUsed < U64) (hs : size < U64) :
    (size ≤ a.runningQueryUsed →
      (onQueryEnd a depth size).1.runningQueryUsed =
        a.runningQueryUsed - size) ∧
    (a.runningQueryUsed < size →
      (onQueryEnd a depth size).1.runningQueryUsed =
        a.runningQueryUsed + U64 - size ∧
      (onQueryEnd a depth size).1.runningQueryUsed ≠ 0) := by
  have e : (onQueryEnd a depth size).1.runningQueryUsed =
      subU64 a.runningQueryUsed size := rfl
  unfold U64 at hru hs
  refine ⟨fun hle => ?_, fun hlt => ⟨?_, ?_⟩⟩ <;>
    · rw [e]
      unfold subU64 U64
      omega

def ahC7w : appHerder := ⟨100, 100, 10, 50, false, 0, [], 10, ⟨0, 0, 0, 0⟩⟩

theorem claim_C7_witness :
    (ahC7w.runningQueryUsed < U64 ∧ (25 : Nat) < U64) ∧
    (((25 : Nat) ≤ ahC7w.runningQueryUsed →
       (onQueryEnd ahC7w 0 25).1.runningQueryUsed =
         ahC7w.runningQueryUsed - 25) ∧
     (ahC7w.runningQueryUsed < 25 →
       (onQueryEnd ahC7w 0 25).1.runningQueryUsed =
         ahC7w.runningQueryUsed + U64 - 25 ∧
       (onQueryEnd ahC7w 0 25).1.runningQueryUsed ≠ 0)) :=
  ⟨⟨by decide, by decide⟩, claim_C7_wrap ahC7w 0 25 (by decide) (by decide)⟩

/-! ## C8: overquota sends and the herder mutex -/

theorem batchWaitLoop_trace_mem : ∀ (wakes : List Env) (a : appHerder)
    (env : Env), ∀ e ∈ (batchWaitLoop a env wakes).2.1,
    e = HerderEvent.sendOverQuota ∨ e = HerderEvent.condWait := by
  intro wakes
  induction wakes with
  | nil =>
    intro a env e he
    simp only [batchWaitLoop] at he
    split at he
    · cases hch : a.overQuotaCh <;> rw [hch] at he <;> simp at he <;>
        simp [he]
    · simp at he
  | cons env' rest ih =>
    intro a env e he
    simp only [batchWaitLoop] at he
    split at he
    · simp only [List.mem_append, List.mem_cons] at he
      rcases he with he | he | he
      · cases hch : a.overQuotaCh <;> rw [hch] at he <;> simp at he <;>
          simp [he]
      · exact Or.inr he
      · exact ih _ env' e he
    · simp at he

theorem sendsLockedAux_no_locks : ∀ (tr : List HerderEvent)
    (_ : ∀ e ∈ tr, e = HerderEvent.sendOverQuota ∨ e = HerderEvent.condWait)
    (d : Int) (rest : List HerderEvent),
    sendsLockedAux d (tr ++ rest) =
      (if 0 < d then countSends tr else 0) + sendsLockedAux d rest := by
  intro tr
  induction tr with
  | nil => intro _ d rest; simp [countSends]
  | cons e tr' ih =>
    intro h d rest
    have he := h e (List.mem_cons_self e tr')
    have h' : ∀ x ∈ tr', x = HerderEvent.sendOverQuota ∨ x = HerderEvent.condWait :=
      fun x hx => h x (List.mem_cons_of_mem e hx)
    rcases he with he | he <;> subst he
    · show (if d > 0 then 1 else 0) + sendsLockedAux d (tr' ++ rest) = _
      rw [ih h' d rest]
      by_cases hd : 0 < d <;>
        simp [hd, countSends, List.countP_cons, Nat.add_comm, Nat.add_assoc,
          Nat.add_left_comm]
    · show sendsLockedAux d (tr' ++ rest) = _
      rw [ih h' d rest]
      by_cases hd : 0 < d <;> simp [hd, countSends, List.countP_cons]

theorem batch_gate_sends (A : appHerder) (env : Env) (wakes : List Env) :
    sendsWhileLocked (batchFinish (batchWaitLoop A env wakes)).2.1 =
      countSends (batchFinish (batchWaitLoop A env wakes)).2.1 := by
  have hmem := batchWaitLoop_trace_mem wakes A env
  rcases hr : batchWaitLoop A env wakes with ⟨a', tr, b⟩
  rw [hr] at hmem
  cases b
  · show sendsWhileLocked (HerderEvent.lockEv :: (tr ++ [HerderEvent.unlockEv])) =
      countSends (HerderEvent.lockEv :: (tr ++ [HerderEvent.unlockEv]))
    show sendsLockedAux (0 + 1) (tr ++ [HerderEvent.unlockEv]) = _
    rw [sendsLockedAux_no_locks tr hmem (0 + 1) [HerderEvent.unlockEv]]
    simp [sendsLockedAux, countSends, List.countP_cons, List.countP_append]
  · show sendsWhileLocked (HerderEvent.lockEv :: tr) =
      countSends (HerderEvent.lockEv :: tr)
    show sendsLockedAux (0 + 1) tr = _
    have := sendsLockedAux_no_locks tr hmem (0 + 1) []
    rw [List.append_nil] at this
    rw [this]
    simp [sendsLockedAux, countSends, List.countP_cons]

def ahC8 : appHerder := ⟨100, 100, 10, 50, true, 0, [], 0, ⟨0, 0, 0, 0⟩⟩

def envC8 : Env := ⟨50, 0, 0, fun _ => 5⟩

def envC8b : Env := ⟨1, 0, 0, fun _ => 0⟩

/-- C8 counterexample: an over-quota `onBatchExecuteStart` (one engine of
size 5, RSS 50 > indexQuota 10, channel configured) performs its overquota
send while holding the herder mutex — inside the wait loop, between the lock
acquisition and the condition-variable wait — contradicting the claim that
every send happens before the lock is acquired or after it is released. -/
theorem claim_C8_counterexample :
    sendsWhileLocked (onBatchExecuteStart ahC8 7 envC8 [envC8b]).2.1 = 1 ∧
    sendsWhileLocked (onBatchExecuteStart ahC8 7 envC8 [envC8b]).2.1 ≠ 0 := by
  refine ⟨by decide, by decide⟩

/-- C8 (amended): the query rejection paths send on the overquota channel
only after releasing the herder mutex (no send of `onQueryStart` happens
under the lock), but the index admission gate performs every one of its
overquota sends while holding the mutex (just before suspending on the
condition variable). -/
theorem claim_C8_lockDiscipline (a : appHerder) (c : Nat) (env envq : Env)
    (wakes : List Env) (depth : Int) (size : Nat) :
    sendsWhileLocked (onQueryStart a envq depth size).2.1 = 0 ∧
    sendsWhileLocked (onBatchExecuteStart a c env wakes).2.1 =
      countSends (onBatchExecuteStart a c env wakes).2.1 := by
  constructor
  · unfold onQueryStart
    by_cases h1 : a.queryQuota < 0
    · rw [if_pos h1]
      rfl
    · rw [if_neg h1]
      by_cases h2 : depth = 0 ∧ a.runningQueryUsed > 0
      · rw [if_pos h2]
        by_cases h3 : a.queryQuota > 0 ∧
            wrap64 (toInt64 envq.curMemoryUsed + toInt64 size) > a.queryQuota
        · rw [if_pos h3]
          cases hch : a.overQuotaCh <;>
            simp [hch, sendsWhileLocked, sendsLockedAux]
        · rw [if_neg h3]
          by_cases h4 : a.appQuota > 0 ∧
              wrap64 (toInt64 envq.curMemoryUsed + toInt64 size) > a.appQuota
          · rw [if_pos h4]
            cases hch : a.overQuotaCh <;>
              simp [hch, sendsWhileLocked, sendsLockedAux]
          · rw [if_neg h4]
            simp [sendsWhileLocked, sendsLockedAux]
      · rw [if_neg h2]
        simp [sendsWhileLocked, sendsLockedAux]
  · unfold onBatchExecuteStart
    by_cases h : a.indexQuota < 0
    · rw [if_pos h]
      rfl
    · rw [if_neg h]
      exact batch_gate_sends _ env wakes

/-! ## C9: stats counters -/

theorem batchWaitLoop_stats : ∀ (wakes : List Env) (a : appHerder) (env : Env),
    a.stats.TotWaitingIn < U64 → a.stats.TotWaitingOut < U64 →
    ∃ j, j ≤ wakes.length + 1 ∧
      ((batchWaitLoop a env wakes).2.2 = true → 1 ≤ j) ∧
      (batchWaitLoop a env wakes).1.stats.TotWaitingIn =
        (a.stats.TotWaitingIn + j) % U64 ∧
      (batchWaitLoop a env wakes).1.stats.TotWaitingOut =
        (a.stats.TotWaitingOut +
          (j - (if (batchWaitLoop a env wakes).2.2 then 1 else 0))) % U64 ∧
      (batchWaitLoop a env wakes).1.stats.TotOnBatchExecuteStartBeg =
        a.stats.TotOnBatchExecuteStartBeg ∧
      (batchWaitLoop a env wakes).1.stats.TotOnBatchExecuteStartEnd =
        a.stats.TotOnBatchExecuteStartEnd := by
  intro wakes
  induction wakes with
  | nil =>
    intro a env hIn hOut
    by_cases hov : overMemQuotaForIndexingLOCKED a env = true
    · refine ⟨1, by omega, ?_⟩
      simp only [batchWaitLoop, hov, if_true]
      refine ⟨fun _ => le_refl 1, ?_, ?_, rfl, rfl⟩
      · rfl
      · show a.stats.TotWaitingOut = (a.stats.TotWaitingOut + (1 - 1)) % U64
        simp [Nat.mod_eq_of_lt hOut]
    · refine ⟨0, by omega, ?_⟩
      simp only [batchWaitLoop, hov, if_false]
      refine ⟨fun h => absurd h (by simp [hov]), ?_, ?_, rfl, rfl⟩
      · show a.stats.TotWaitingIn = (a.stats.TotWaitingIn + 0) % U64
        simp [Nat.mod_eq_of_lt hIn]
      · show a.stats.TotWaitingOut = (a.stats.TotWaitingOut + (0 - 0)) % U64
        simp [Nat.mod_eq_of_lt hOut]
  | cons env' rest ih =>
    intro a env hIn hOut
    by_cases hov : overMemQuotaForIndexingLOCKED a env = true
    · have hIn2 : (waitExit (waitEnter a)).stats.TotWaitingIn < U64 := by
        show bumpU64 a.stats.TotWaitingIn < U64
        exact Nat.mod_lt _ (by unfold U64; omega)
      have hOut2 : (waitExit (waitEnter a)).stats.TotWaitingOut < U64 := by
        show bumpU64 a.stats.TotWaitingOut < U64
        exact Nat.mod_lt _ (by unfold U64; omega)
      obtain ⟨j', hj', hb', hIn', hOut', hBeg', hEnd'⟩ := ih (waitExit (waitEnter a)) env' hIn2 hOut2
      refine ⟨j' + 1, by simp at hj' ⊢; omega, ?_⟩
      simp only [batchWaitLoop, hov, if_true]
      have eIn2 : (waitExit (waitEnter a)).stats.TotWaitingIn =
          (a.stats.TotWaitingIn + 1) % U64 := rfl
      have eOut2 : (waitExit (waitEnter a)).stats.TotWaitingOut =
          (a.stats.TotWaitingOut + 1) % U64 := rfl
      have eBeg2 : (waitExit (waitEnter a)).stats.TotOnBatchExecuteStartBeg =
          a.stats.TotOnBatchExecuteStartBeg := rfl
      have eEnd2 : (waitExit (waitEnter a)).stats.TotOnBatchExecuteStartEnd =
          a.stats.TotOnBatchExecuteStartEnd := rfl
      refine ⟨fun _ => by omega, ?_, ?_, ?_, ?_⟩
      · show (batchWaitLoop (waitExit (waitEnter a)) env' rest).1.stats.TotWaitingIn =
          (a.stats.TotWaitingIn + (j' + 1)) % U64
        rw [hIn', eIn2, Nat.mod_add_mod]
        ring_nf
      · show (batchWaitLoop (waitExit (waitEnter a)) env' rest).1.stats.TotWaitingOut =
          (a.stats.TotWaitingOut +
            (j' + 1 -
              (if (batchWaitLoop (waitExit (waitEnter a)) env' rest).2.2 then 1
               else 0))) % U64
        rw [hOut', eOut2, Nat.mod_add_mod]
        by_cases hb : (batchWaitLoop (waitExit (waitEnter a)) env' rest).2.2 = true
        · have h1 : 1 ≤ j' := hb' hb
          simp only [hb, if_true]
          congr 1
          omega
        · simp only [Bool.not_eq_true] at hb
          simp only [hb, Bool.false_eq_true, if_false]
          congr 1
          omega
      · show (batchWaitLoop (waitExit (waitEnter a)) env' rest).1.stats.TotOnBatchExecuteStartBeg =
          a.stats.TotOnBatchExecuteStartBeg
        rw [hBeg', eBeg2]
      · show (batchWaitLoop (waitExit (waitEnter a)) env' rest).1.stats.TotOnBatchExecuteStartEnd =
          a.stats.TotOnBatchExecuteStartEnd
        rw [hEnd', eEnd2]
    · refine ⟨0, by omega, ?_⟩
      simp only [batchWaitLoop, hov, if_false]
      refine ⟨fun h => absurd h (by simp [hov]), ?_, ?_, rfl, rfl⟩
      · show a.stats.TotWaitingIn = (a.stats.TotWaitingIn + 0) % U64
        simp [Nat.mod_eq_of_lt hIn]
      · show a.stats.TotWaitingOut = (a.stats.TotWaitingOut + (0 - 0)) % U64
        simp [Nat.mod_eq_of_lt hOut]

theorem onBatchExecuteStart_stats (a : appHerder) (c : Nat) (env : Env)
    (wakes : List Env) (hneg : ¬ a.indexQuota < 0)
    (hIn : a.stats.TotWaitingIn < U64) (hOut : a.stats.TotWaitingOut < U64)
    (hBeg : a.stats.TotOnBatchExecuteStartBeg + 1 < U64)
    (hEnd : a.stats.TotOnBatchExecuteStartEnd + 1 < U64) :
    ∃ j, j ≤ wakes.length + 1 ∧
      (onBatchExecuteStart a c env wakes).1.stats.TotWaitingIn =
        (a.stats.TotWaitingIn + j) % U64 ∧
      (onBatchExecuteStart a c env wakes).1.stats.TotWaitingOut =
        (a.stats.TotWaitingOut +
          (j - (if (onBatchExecuteStart a c env wakes).2.2 then 1 else 0))) %
          U64 ∧
      (onBatchExecuteStart a c env wakes).1.stats.TotOnBatchExecuteStartBeg =
        a.stats.TotOnBatchExecuteStartBeg + 1 ∧
      (onBatchExecuteStart a c env wakes).1.stats.TotOnBatchExecuteStartEnd =
        (if (onBatchExecuteStart a c env wakes).2.2 then
          a.stats.TotOnBatchExecuteStartEnd
         else a.stats.TotOnBatchExecuteStartEnd + 1) := by
  obtain ⟨j, hj, hb, hIn', hOut', hBeg', hEnd'⟩ :=
    batchWaitLoop_stats wakes
      { a with stats := bumpBatchBeg a.stats,
               indexes := insertHandle c a.indexes } env hIn hOut
  refine ⟨j, hj, ?_⟩
  unfold onBatchExecuteStart
  rw [if_neg hneg]
  rcases hr : batchWaitLoop
      { a with stats := bumpBatchBeg a.stats,
               indexes := insertHandle c a.indexes } env wakes with ⟨a3, tr, b⟩
  rw [hr] at hIn' hOut' hBeg' hEnd'
  have hIn2 : a3.stats.TotWaitingIn =
      (a.stats.TotWaitingIn + j) % U64 := hIn'
  have hOut2 : a3.stats.TotWaitingOut =
      (a.stats.TotWaitingOut + (j - if b then 1 else 0)) % U64 := hOut'
  have hBeg2 : a3.stats.TotOnBatchExecuteStartBeg =
      (a.stats.TotOnBatchExecuteStartBeg + 1) % U64 := hBeg'
  have hEnd2 : a3.stats.TotOnBatchExecuteStartEnd =
      a.stats.TotOnBatchExecuteStartEnd := hEnd'
  cases b
  · simp only [Bool.false_eq_true, if_false, Nat.sub_zero] at hOut2
    refine ⟨?_, ?_, ?_, ?_⟩
    · show (bumpBatchEnd a3.stats).TotWaitingIn =
        (a.stats.TotWaitingIn + j) % U64
      exact hIn2
    · show (bumpBatchEnd a3.stats).TotWaitingOut =
        (a.stats.TotWaitingOut + (j - 0)) % U64
      rw [Nat.sub_zero]
      exact hOut2
    · show a3.stats.TotOnBatchExecuteStartBeg =
        a.stats.TotOnBatchExecuteStartBeg + 1
      rw [hBeg2]
      exact Nat.mod_eq_of_lt hBeg
    · show bumpU64 a3.stats.TotOnBatchExecuteStartEnd =
        a.stats.TotOnBatchExecuteStartEnd + 1
      unfold bumpU64
      rw [hEnd2]
      exact Nat.mod_eq_of_lt hEnd
  · simp only [eq_self_iff_true, if_true] at hOut2
    refine ⟨?_, ?_, ?_, ?_⟩
    · show a3.stats.TotWaitingIn = (a.stats.TotWaitingIn + j) % U64
      exact hIn2
    · show a3.stats.TotWaitingOut =
        (a.stats.TotWaitingOut + (j - 1)) % U64
      exact hOut2
    · show a3.stats.TotOnBatchExecuteStartBeg =
        a.stats.TotOnBatchExecuteStartBeg + 1
      rw [hBeg2]
      exact Nat.mod_eq_of_lt hBeg
    · show a3.stats.TotOnBatchExecuteStartEnd =
        a.stats.TotOnBatchExecuteStartEnd
      exact hEnd2

theorem onQueryStart_stats (a : appHerder) (env : Env) (depth : Int)
    (size : Nat) : (onQueryStart a env depth size).1.stats = a.stats := by
  unfold onQueryStart
  split
  · rfl
  · split
    · split
      · rfl
      · split
        · rfl
        · rfl
    · rfl

/-- C9: all four stats counters are non-decreasing under every herder
operation (given that the `uint64` counters do not overflow during the call);
`TotOnBatchExecuteStartEnd ≤ TotOnBatchExecuteStartBeg` is preserved by
`onBatchExecuteStart`, with equality restored whenever the call completes
(no worker left inside the gate); the query, close and progress hooks leave
all stats untouched. -/
theorem claim_C9_statsMonotone (a : appHerder) (c : Nat) (env envq : Env)
    (wakes : List Env) (depth : Int) (size cur prev : Nat)
    (hIn : a.stats.TotWaitingIn + wakes.length + 1 < U64)
    (hOut : a.stats.TotWaitingOut + wakes.length + 1 < U64)
    (hBeg : a.stats.TotOnBatchExecuteStartBeg + 1 < U64)
    (hEnd : a.stats.TotOnBatchExecuteStartEnd + 1 < U64) :
    (a.stats.TotWaitingIn ≤
        (onBatchExecuteStart a c env wakes).1.stats.TotWaitingIn ∧
     a.stats.TotWaitingOut ≤
        (onBatchExecuteStart a c env wakes).1.stats.TotWaitingOut ∧
     a.stats.TotOnBatchExecuteStartBeg ≤
        (onBatchExecuteStart a c env wakes).1.stats.TotOnBatchExecuteStartBeg ∧
     a.stats.TotOnBatchExecuteStartEnd ≤
        (onBatchExecuteStart a c env wakes).1.stats.TotOnBatchExecuteStartEnd) ∧
    (a.stats.TotOnBatchExecuteStartEnd ≤ a.stats.TotOnBatchExecuteStartBeg →
      (onBatchExecuteStart a c env wakes).1.stats.TotOnBatchExecuteStartEnd ≤
        (onBatchExecuteStart a c env wakes).1.stats.TotOnBatchExecuteStartBeg) ∧
    ((onBatchExecuteStart a c env wakes).2.2 = false →
      a.stats.TotOnBatchExecuteStartBeg = a.stats.TotOnBatchExecuteStartEnd →
      (onBatchExecuteStart a c env wakes).1.stats.TotOnBatchExecuteStartBeg =
        (onBatchExecuteStart a c env wakes).1.stats.TotOnBatchExecuteStartEnd) ∧
    (onQueryStart a envq depth size).1.stats = a.stats ∧
    (onQueryEnd a depth size).1.stats = a.stats ∧
    (onClose a c).1.stats = a.stats ∧
    (onPersisterProgress a).1.stats = a.stats ∧
    (onMergerProgress a).1.stats = a.stats ∧
    (onMemoryUsedDropped a cur prev).1.stats = a.stats := by
  have hQ := onQueryStart_stats a envq depth size
  by_cases hneg : a.indexQuota < 0
  · rw [onBatchExecuteStart_neg a c env wakes hneg]
    exact ⟨⟨le_refl _, le_refl _, le_refl _, le_refl _⟩, fun h => h,
      fun _ h => h, hQ, rfl, rfl, rfl, rfl, rfl⟩
  · obtain ⟨j, hj, hIn', hOut', hBeg', hEnd'⟩ :=
      onBatchExecuteStart_stats a c env wakes hneg (by omega) (by omega)
        hBeg hEnd
    have hInv : (a.stats.TotWaitingIn + j) % U64 =
        a.stats.TotWaitingIn + j := Nat.mod_eq_of_lt (by omega)
    have hOutv : ∀ k, (a.stats.TotWaitingOut + (j - k)) % U64 =
        a.stats.TotWaitingOut + (j - k) :=
      fun k => Nat.mod_eq_of_lt (by omega)
    by_cases hbl : (onBatchExecuteStart a c env wakes).2.2 = true
    · rw [hbl] at hOut' hEnd'
      simp only [eq_self_iff_true, if_true] at hOut' hEnd'
      refine ⟨⟨?_, ?_, ?_, ?_⟩, ?_, ?_, hQ, rfl, rfl, rfl, rfl, rfl⟩
      · rw [hIn', hInv]; omega
      · rw [hOut', hOutv 1]; omega
      · rw [hBeg']; omega
      · rw [hEnd']
      · intro h; rw [hBeg', hEnd']; omega
      · intro hf _; rw [hf] at hbl; exact absurd hbl (by simp)
    · simp only [Bool.not_eq_true] at hbl
      rw [hbl] at hOut' hEnd'
      simp only [Bool.false_eq_true, if_false] at hOut' hEnd'
      refine ⟨⟨?_, ?_, ?_, ?_⟩, ?_, ?_, hQ, rfl, rfl, rfl, rfl, rfl⟩
      · rw [hIn', hInv]; omega
      · rw [hOut', hOutv 0]; omega
      · rw [hBeg']; omega
      · rw [hEnd']; omega
      · intro h; rw [hBeg', hEnd']; omega
      · intro _ h; rw [hBeg', hEnd']; omega

def ahC9 : appHerder := ⟨100, 100, 10, 50, true, 0, [], 0, ⟨0, 0, 0, 0⟩⟩

theorem claim_C9_witness :
    (ahC9.stats.TotWaitingIn + [envC8b].length + 1 < U64 ∧
     ahC9.stats.TotWaitingOut + [envC8b].length + 1 < U64 ∧
     ahC9.stats.TotOnBatchExecuteStartBeg + 1 < U64 ∧
     ahC9.stats.TotOnBatchExecuteStartEnd + 1 < U64) ∧
    ((ahC9.stats.TotWaitingIn ≤
        (onBatchExecuteStart ahC9 7 envC8 [envC8b]).1.stats.TotWaitingIn ∧
      ahC9.stats.TotWaitingOut ≤
        (onBatchExecuteStart ahC9 7 envC8 [envC8b]).1.stats.TotWaitingOut ∧
      ahC9.stats.TotOnBatchExecuteStartBeg ≤
        (onBatchExecuteStart ahC9 7 envC8
          [envC8b]).1.stats.TotOnBatchExecuteStartBeg ∧
      ahC9.stats.TotOnBatchExecuteStartEnd ≤
        (onBatchExecuteStart ahC9 7 envC8
          [envC8b]).1.stats.TotOnBatchExecuteStartEnd) ∧
     (ahC9.stats.TotOnBatchExecuteStartEnd ≤
        ahC9.stats.TotOnBatchExecuteStartBeg →
      (onBatchExecuteStart ahC9 7 envC8
          [envC8b]).1.stats.TotOnBatchExecuteStartEnd ≤
        (onBatchExecuteStart ahC9 7 envC8
          [envC8b]).1.stats.TotOnBatchExecuteStartBeg) ∧
     ((onBatchExecuteStart ahC9 7 envC8 [envC8b]).2.2 = false →
      ahC9.stats.TotOnBatchExecuteStartBeg =
        ahC9.stats.TotOnBatchExecuteStartEnd →
      (onBatchExecuteStart ahC9 7 envC8
          [envC8b]).1.stats.TotOnBatchExecuteStartBeg =
        (onBatchExecuteStart ahC9 7 envC8
          [envC8b]).1.stats.TotOnBatchExecuteStartEnd) ∧
     (onQueryStart ahC9 envC8 0 5).1.stats = ahC9.stats ∧
     (onQueryEnd ahC9 0 5).1.stats = ahC9.stats ∧
     (onClose ahC9 7).1.stats = ahC9.stats ∧
     (onPersisterProgress ahC9).1.stats = ahC9.stats ∧
     (onMergerProgress ahC9).1.stats = ahC9.stats ∧
     (onMemoryUsedDropped ahC9 0 0).1.stats = ahC9.stats) :=
  ⟨⟨by decide, by decide, by decide, by decide⟩,
   claim_C9_statsMonotone ahC9 7 envC8 envC8 [envC8b] 0 5 0 0 (by decide)
     (by decide) (by decide) (by decide)⟩
